import Mathlib

/-!
# MoltenFlake snowflake codec: shallow embedding

This file embeds the `MoltenFlake` TypeScript class (snowflake generation and
deconstruction) into Lean and proves the specified properties about it.

Modelling choices:

* JS `bigint` values are `Int`.  JS `number` values that flow through the code
  are always integers, `NaN`, an infinity, or a finite non-integer; they are
  modelled by the inductive `JSNum`, with integer-valued numbers carried
  exactly.
* The JS bigint operators `<<`, `>>`, `|`, `&` are modelled by multiplication,
  floor division (`Int.fdiv`, which is the arithmetic shift JS uses), and the
  two's-complement `Int.lor` / `Int.land` from Mathlib, which agree with the
  JS bigint bitwise semantics.
* `Number(bigint)` and the floating-point addition in `deconstruct` and
  `getTimestamp` round to the nearest IEEE-754 double; `roundToDouble` models
  that rounding exactly on integers (round half to even at 53 significant
  bits), so the double-precision loss above `2^53` is part of the model.  The
  subtraction inside `calculateDuration` acts on the two already-rounded
  timestamps and is modelled exactly.
* Thrown JS errors (`TypeError` from the validation guard, `RangeError` from
  `BigInt(number)` on a non-integral number, `SyntaxError` from
  `BigInt(string)` on an unparseable string) become `Except JSError`.
* The module-level mutable counter `increment` becomes an explicit state
  argument threaded through `generate`, which returns the result together with
  the state after the call.  The remaining operations (`deconstruct`,
  `getTimestamp`, `calculateDuration`, `EPOCH`) never reference the counter in
  the source, so they are embedded as pure functions of their arguments.
* `BigInt(string)` (ECMAScript `StringToBigInt`) is `jsStringToBigInt`:
  whitespace is trimmed, the empty remainder denotes `0`, and otherwise an
  optionally signed decimal literal (or an unsigned `0x`/`0o`/`0b` literal) is
  parsed.  `BigInt.prototype.toString(radix)` is `bigIntToString` /
  `bigIntToStringBase2`.
* The `date` getter of a deconstructed snowflake is a derived view of the
  `timestamp` field and carries no extra information, so the embedded record
  keeps the five data fields.
-/

namespace MoltenFlake

/-- PlayerBerry epoch timestamp (2015-01-01T00:00:00.000Z) in milliseconds:
the module constant `EPOCH`. -/
def EPOCH : Int := 1420070400000

/-- A JS `number` as it can reach the body of `generate`: an exactly
represented integer, a finite non-integer, `NaN`, or an infinity. -/
inductive JSNum where
  | int (n : Int)
  | nonInt
  | nan
  | posInf
  | negInf
  deriving DecidableEq, Repr

/-- The argument of `generate`: a `number`, a `Date` (whose `getTime()` is the
carried `JSNum`, `NaN` for an invalid date), or any non-number value. -/
inductive GenInput where
  | num (x : JSNum)
  | date (x : JSNum)
  | other
  deriving DecidableEq, Repr

/-- The JS error classes the codec can throw. -/
inductive JSError where
  | typeError
  | rangeError
  | syntaxError
  deriving DecidableEq, Repr

/-- JS `isNaN` on an already-numeric value. -/
def jsIsNaN : JSNum → Bool
  | .nan => true
  | _ => false

/-- JS `BigInt(number)`: defined exactly on integral finite numbers, a
`RangeError` (here `none`) otherwise. -/
def jsBigIntOfNum : JSNum → Option Int
  | .int n => some n
  | _ => none

/-- JS bigint `x << n` (for a constant nonnegative shift). -/
def bigShl (x : Int) (n : Nat) : Int := x * 2 ^ n

/-- JS bigint `x >> n`: arithmetic shift, i.e. floor division. -/
def bigShr (x : Int) (n : Nat) : Int := Int.fdiv x (2 ^ n)

/-- The character JS uses for the digit `d` (`0`-`9`, then lowercase). -/
def digitChar (d : Nat) : Char :=
  if d < 10 then Char.ofNat (48 + d) else Char.ofNat (87 + d)

/-- Base-`b` digits of `n`, most significant first, computed with an explicit
fuel bound so that the definition is structurally recursive (any `fuel ≥ n`
yields the digits of `n` when `2 ≤ b`). -/
def natDigitsAux (b : Nat) : Nat → Nat → List Nat
  | 0, _ => []
  | fuel + 1, n => if n = 0 then [] else natDigitsAux b fuel (n / b) ++ [n % b]

/-- Base-`b` digits of `n`, most significant first (empty for `n = 0`). -/
def natDigits (b n : Nat) : List Nat := natDigitsAux b n n

/-- Base-`b` rendering of a natural number, as JS renders bigints. -/
def natToBase (b n : Nat) : String :=
  if n = 0 then "0" else String.mk ((natDigits b n).map digitChar)

/-- The IEEE-754 double nearest to the integer `x` (round half to even), as
an integer — every double of magnitude at least 1 that arises here is
integral.  This is JS `Number(bigint)` on an integer-valued bigint, and also
the result of a JS floating-point addition of two integral doubles when
applied to their exact sum.  (Magnitudes at or above the double overflow
threshold `2^1024`, where `Number` yields `Infinity`, are far beyond every
value this development touches and are not modelled.) -/
def roundToDouble (x : Int) : Int :=
  let n := x.natAbs
  let bits := (natDigits 2 n).length
  if bits ≤ 53 then x
  else
    let e := bits - 53
    let q := n / 2 ^ e
    let r := n % 2 ^ e
    let half := 2 ^ (e - 1)
    let q2 := if half < r ∨ (r = half ∧ q % 2 = 1) then q + 1 else q
    (if x < 0 then -1 else 1) * ((q2 * 2 ^ e : Nat) : Int)

/-- JS `BigInt.prototype.toString()` (decimal). -/
def bigIntToString (x : Int) : String :=
  if x < 0 then "-" ++ natToBase 10 x.natAbs else natToBase 10 x.natAbs

/-- JS `BigInt.prototype.toString(2)` (binary). -/
def bigIntToStringBase2 (x : Int) : String :=
  if x < 0 then "-" ++ natToBase 2 x.natAbs else natToBase 2 x.natAbs

/-- JS `String.prototype.padStart(len, c)`. -/
def padStart (s : String) (len : Nat) (c : Char) : String :=
  String.mk (List.replicate (len - s.length) c ++ s.data)

/-- The whitespace characters `StringToBigInt` trims. -/
def jsWhitespace (c : Char) : Bool :=
  c == ' ' || c == '\t' || c == '\n' || c == '\r' || c == '\x0b' || c == '\x0c' ||
    c == '\u00A0' || c == '\uFEFF'

/-- Value of a digit character in base `b` (`0`-`9`, `a`-`f`, `A`-`F`),
`none` if the character is no digit of that base. -/
def digitVal (b : Nat) (c : Char) : Option Nat :=
  let v : Option Nat :=
    if 48 ≤ c.toNat ∧ c.toNat ≤ 57 then some (c.toNat - 48)
    else if 97 ≤ c.toNat ∧ c.toNat ≤ 102 then some (c.toNat - 87)
    else if 65 ≤ c.toNat ∧ c.toNat ≤ 70 then some (c.toNat - 55)
    else none
  match v with
  | some d => if d < b then some d else none
  | none => none

/-- Left-to-right accumulation of base-`b` digit characters. -/
def parseDigitsAux (b : Nat) (acc : Nat) : List Char → Option Nat
  | [] => some acc
  | c :: cs =>
    match digitVal b c with
    | some d => parseDigitsAux b (acc * b + d) cs
    | none => none

/-- Parse a nonempty run of base-`b` digit characters. -/
def parseDigits (b : Nat) (cs : List Char) : Option Nat :=
  match cs with
  | [] => none
  | _ => parseDigitsAux b 0 cs

/-- Strip leading and trailing JS whitespace. -/
def trimWhitespace (cs : List Char) : List Char :=
  ((cs.dropWhile jsWhitespace).reverse.dropWhile jsWhitespace).reverse

/-- Core of ECMAScript `StringToBigInt` on an already-trimmed character list:
the empty remainder denotes `0`; otherwise an optionally signed decimal
literal, or an unsigned `0x`/`0X`/`0b`/`0B`/`0o`/`0O` radix-prefixed literal,
is parsed. -/
def jsStringToBigIntCore : List Char → Option Int
  | [] => some 0
  | c :: rest =>
    if c = '+' then (parseDigits 10 rest).map Int.ofNat
    else if c = '-' then (parseDigits 10 rest).map (fun n => -Int.ofNat n)
    else if c = '0' then
      match rest with
      | [] => (parseDigits 10 [c]).map Int.ofNat
      | c2 :: rest2 =>
        if c2 = 'x' ∨ c2 = 'X' then (parseDigits 16 rest2).map Int.ofNat
        else if c2 = 'b' ∨ c2 = 'B' then (parseDigits 2 rest2).map Int.ofNat
        else if c2 = 'o' ∨ c2 = 'O' then (parseDigits 8 rest2).map Int.ofNat
        else (parseDigits 10 (c :: c2 :: rest2)).map Int.ofNat
    else (parseDigits 10 (c :: rest)).map Int.ofNat

/-- ECMAScript `StringToBigInt`, as invoked by `BigInt(string)`: trims
whitespace and parses the remainder; `none` models the thrown
`SyntaxError`. -/
def jsStringToBigInt (s : String) : Option Int :=
  jsStringToBigIntCore (trimWhitespace s.data)

/-- The data fields of `MoltenFlake.deconstruct`'s result (the `date` getter
is the timestamp viewed as a date and is omitted as derived data). -/
structure DeconstructedSnowflake where
  timestamp : Int
  workerId : Int
  processId : Int
  increment : Int
  binary : String
  deriving DecidableEq, Repr

/-- `MoltenFlake.generate(timestamp)`, with the module-level `increment`
counter passed in explicitly; returns the call's result together with the
counter's value after the call.  Mirrors the source statement by statement:
the `Date` branch, the `typeof`/`isNaN` validation, the wrap-around reset
`if (increment >= 0b111111111111n) increment = 0n`, and the composition
`((BigInt(timestamp) - EPOCH) << 22n) | (1n << 17n) | increment++` rendered
in decimal — where `BigInt(timestamp)` throws a `RangeError` after the reset
has already executed. -/
def generate (timestamp : GenInput) (increment : Int) :
    Except JSError String × Int :=
  let ts : Option JSNum :=
    match timestamp with
    | .num x => some x
    | .date x => some x
    | .other => none
  match ts with
  | none => (.error .typeError, increment)
  | some x =>
    if jsIsNaN x then (.error .typeError, increment)
    else
      let inc1 : Int := if 4095 ≤ increment then 0 else increment
      match jsBigIntOfNum x with
      | none => (.error .rangeError, inc1)
      | some n =>
        (.ok (bigIntToString
          (Int.lor (Int.lor (bigShl (n - EPOCH) 22) (bigShl 1 17)) inc1)),
         inc1 + 1)

/-- `MoltenFlake.deconstruct(snowflake)`.  The source computes
`Number(bigIntSnowflake >> 22n) + Number(EPOCH)`: each `Number(bigint)`
conversion and the floating-point addition round to the nearest double,
which `roundToDouble` models (`Number(EPOCH)` and the three masked fields,
always below `2^53`, are unchanged by it). -/
def deconstruct (snowflake : String) : Except JSError DeconstructedSnowflake :=
  match jsStringToBigInt snowflake with
  | none => .error .syntaxError
  | some b =>
    .ok { timestamp :=
            roundToDouble (roundToDouble (bigShr b 22) + roundToDouble EPOCH)
          workerId := roundToDouble (Int.land (bigShr b 17) 31)
          processId := roundToDouble (Int.land (bigShr b 12) 31)
          increment := roundToDouble (Int.land b 4095)
          binary := padStart (bigIntToStringBase2 b) 64 '0' }

/-- `MoltenFlake.getTimestamp(snowflake)`: the same
`Number(BigInt(snowflake) >> 22n) + Number(EPOCH)` expression as in
`deconstruct`. -/
def getTimestamp (snowflake : String) : Except JSError Int :=
  match jsStringToBigInt snowflake with
  | none => .error .syntaxError
  | some b =>
    .ok (roundToDouble (roundToDouble (bigShr b 22) + roundToDouble EPOCH))

/-- `n` consecutive calls of `generate` with the same argument, threading the
counter; the list of the calls' results in order. -/
def genRun (timestamp : GenInput) (increment : Int) :
    Nat → List (Except JSError String)
  | 0 => []
  | k + 1 =>
    (generate timestamp increment).fst ::
      genRun timestamp (generate timestamp increment).snd k


/-! ## Decidable equality for results -/

instance {ε α : Type} [DecidableEq ε] [DecidableEq α] : DecidableEq (Except ε α) := fun a b =>
  match a, b with
  | .error e, .error f =>
    if h : e = f then isTrue (by rw [h]) else isFalse (by simp [h])
  | .error _, .ok _ => isFalse (fun h => Except.noConfusion h)
  | .ok _, .error _ => isFalse (fun h => Except.noConfusion h)
  | .ok x, .ok y =>
    if h : x = y then isTrue (by rw [h]) else isFalse (by simp [h])

/-! ## Digit characters -/

theorem toNat_digitChar {d : Nat} (h : d < 10) : (digitChar d).toNat = 48 + d := by
  interval_cases d <;> decide

theorem digitVal_digitChar {b d : Nat} (hd : d < b) (hb : b ≤ 10) :
    digitVal b (digitChar d) = some d := by
  have h10 : d < 10 := lt_of_lt_of_le hd hb
  have ht : (digitChar d).toNat = 48 + d := toNat_digitChar h10
  simp only [digitVal, ht]
  rw [if_pos (by omega : 48 ≤ 48 + d ∧ 48 + d ≤ 57)]
  simp only [Nat.add_sub_cancel_left]
  rw [if_pos hd]

theorem natDigitsAux_zero (b fuel : Nat) : natDigitsAux b fuel 0 = [] := by
  cases fuel <;> simp [natDigitsAux]

theorem parseDigitsAux_append (b acc : Nat) (xs ys : List Char) :
    parseDigitsAux b acc (xs ++ ys) =
      match parseDigitsAux b acc xs with
      | some acc2 => parseDigitsAux b acc2 ys
      | none => none := by
  induction xs generalizing acc with
  | nil => simp [parseDigitsAux]
  | cons c cs ih =>
    simp only [List.cons_append, parseDigitsAux]
    cases digitVal b c with
    | none => rfl
    | some d => exact ih _

theorem parseDigitsAux_natDigitsAux {b : Nat} (hb2 : 2 ≤ b) (hb10 : b ≤ 10) :
    ∀ fuel n acc, n ≤ fuel →
      parseDigitsAux b acc ((natDigitsAux b fuel n).map digitChar) =
        some (acc * b ^ (natDigitsAux b fuel n).length + n) := by
  intro fuel
  induction fuel with
  | zero =>
    intro n acc hn
    interval_cases n
    simp [natDigitsAux, parseDigitsAux]
  | succ fuel ih =>
    intro n acc hn
    by_cases h0 : n = 0
    · subst h0; simp [natDigitsAux, parseDigitsAux]
    · have hdiv : n / b ≤ fuel := by
        have : n / b < n := Nat.div_lt_self (Nat.pos_of_ne_zero h0) hb2
        omega
      simp only [natDigitsAux, if_neg h0, List.map_append, List.map_cons, List.map_nil,
        List.length_append, List.length_cons, List.length_nil]
      rw [parseDigitsAux_append, ih (n / b) acc hdiv]
      simp only [parseDigitsAux, digitVal_digitChar (Nat.mod_lt n (by omega)) hb10]
      congr 1
      have hdm : b * (n / b) + n % b = n := Nat.div_add_mod n b
      have hpow : b ^ ((natDigitsAux b fuel (n / b)).length + (0 + 1)) =
          b ^ (natDigitsAux b fuel (n / b)).length * b := by
        rw [Nat.zero_add, pow_succ]
      rw [hpow]
      nlinarith [hdm]

theorem natDigitsAux_lt {b : Nat} (hb : 2 ≤ b) :
    ∀ fuel n d, d ∈ natDigitsAux b fuel n → d < b := by
  intro fuel
  induction fuel with
  | zero => simp [natDigitsAux]
  | succ fuel ih =>
    intro n d hd
    by_cases h0 : n = 0
    · subst h0; simp [natDigitsAux] at hd
    · simp only [natDigitsAux, if_neg h0, List.mem_append, List.mem_singleton] at hd
      rcases hd with h | h
      · exact ih _ _ h
      · subst h; exact Nat.mod_lt _ (by omega)

theorem natDigitsAux_length_le {b : Nat} (hb : 2 ≤ b) :
    ∀ fuel n k, n ≤ fuel → n < b ^ k → (natDigitsAux b fuel n).length ≤ k := by
  intro fuel
  induction fuel with
  | zero =>
    intro n k h1 h2
    interval_cases n
    simp [natDigitsAux]
  | succ fuel ih =>
    intro n k hn hk
    by_cases h0 : n = 0
    · subst h0; simp [natDigitsAux]
    · cases k with
      | zero => simp only [pow_zero, Nat.lt_one_iff] at hk; omega
      | succ k =>
        simp only [natDigitsAux, if_neg h0, List.length_append, List.length_cons,
          List.length_nil]
        have h1 : n / b ≤ fuel := by
          have := Nat.div_lt_self (Nat.pos_of_ne_zero h0) hb
          omega
        have h2 : n / b < b ^ k := by
          rw [Nat.div_lt_iff_lt_mul (by omega)]
          calc n < b ^ (k + 1) := hk
          _ = b ^ k * b := pow_succ b k
        have := ih (n / b) k h1 h2
        omega

/-- Integers below `2^53` in magnitude are exactly representable doubles:
`Number` leaves them unchanged. -/
theorem roundToDouble_small {x : Int} (h : x.natAbs < 2 ^ 53) :
    roundToDouble x = x := by
  have hlen : (natDigits 2 x.natAbs).length ≤ 53 :=
    natDigitsAux_length_le (by omega) x.natAbs x.natAbs 53 (le_refl _) h
  simp only [roundToDouble, hlen, if_pos]

theorem natToBase_data_ne_nil {b : Nat} (n : Nat) : (natToBase b n).data ≠ [] := by
  by_cases h0 : n = 0
  · subst h0; simp [natToBase]
  · simp only [natToBase, if_neg h0]
    cases n with
    | zero => exact absurd rfl h0
    | succ m =>
      show ((natDigitsAux b (m + 1) (m + 1)).map digitChar) ≠ []
      simp [natDigitsAux, h0]

theorem natToBase_data_digits {b : Nat} (hb2 : 2 ≤ b) (hb10 : b ≤ 10) (n : Nat) :
    ∀ c ∈ (natToBase b n).data, 48 ≤ c.toNat ∧ c.toNat ≤ 57 := by
  intro c hc
  by_cases h0 : n = 0
  · subst h0
    simp only [natToBase, if_pos rfl] at hc
    have : c = '0' := by simpa using hc
    subst this; decide
  · simp only [natToBase, if_neg h0] at hc
    have hc2 : c ∈ (natDigits b n).map digitChar := hc
    obtain ⟨d, hd, rfl⟩ := List.mem_map.mp hc2
    have hdb : d < b := natDigitsAux_lt hb2 n n d hd
    have ht : (digitChar d).toNat = 48 + d := toNat_digitChar (by omega)
    omega

/-! ## Whitespace and trimming -/

theorem toNat_of_jsWhitespace {c : Char} (h : jsWhitespace c = true) :
    c.toNat = 32 ∨ c.toNat = 9 ∨ c.toNat = 10 ∨ c.toNat = 13 ∨ c.toNat = 11 ∨
      c.toNat = 12 ∨ c.toNat = 160 ∨ c.toNat = 65279 := by
  simp only [jsWhitespace, Bool.or_eq_true, beq_iff_eq] at h
  rcases h with (((((((h | h) | h) | h) | h) | h) | h) | h) <;> subst h <;> decide

theorem jsWhitespace_digit {c : Char} (h48 : 48 ≤ c.toNat) (h57 : c.toNat ≤ 57) :
    jsWhitespace c = false := by
  cases hw : jsWhitespace c
  · rfl
  · have := toNat_of_jsWhitespace hw
    omega

theorem dropWhile_eq_self_of_head {p : Char → Bool} {cs : List Char}
    (h : ∀ c ∈ cs, p c = false) : cs.dropWhile p = cs := by
  cases cs with
  | nil => rfl
  | cons c rest => simp [List.dropWhile_cons, h c (by simp)]

theorem trimWhitespace_eq_self {cs : List Char}
    (h : ∀ c ∈ cs, jsWhitespace c = false) : trimWhitespace cs = cs := by
  unfold trimWhitespace
  rw [dropWhile_eq_self_of_head h,
    dropWhile_eq_self_of_head (fun c hc => h c (List.mem_reverse.mp hc)),
    List.reverse_reverse]

theorem dropWhile_eq_nil_of_all {p : Char → Bool} :
    ∀ {cs : List Char}, (∀ c ∈ cs, p c = true) → cs.dropWhile p = [] := by
  intro cs
  induction cs with
  | nil => intro _; rfl
  | cons c rest ih =>
    intro h
    rw [List.dropWhile_cons, if_pos (h c (by simp))]
    exact ih (fun d hd => h d (by simp [hd]))

theorem trimWhitespace_eq_nil {cs : List Char}
    (h : ∀ c ∈ cs, jsWhitespace c = true) : trimWhitespace cs = [] := by
  unfold trimWhitespace
  rw [dropWhile_eq_nil_of_all h]
  rfl

/-! ## Parsing a rendered bigint gives back the value -/

theorem parseDigits_natToBase {b : Nat} (hb2 : 2 ≤ b) (hb10 : b ≤ 10) (n : Nat) :
    parseDigits b (natToBase b n).data = some n := by
  by_cases h0 : n = 0
  · subst h0
    show parseDigits b ['0'] = some 0
    have hd0 : digitChar 0 = '0' := by decide
    have hd : digitVal b '0' = some 0 := by
      rw [← hd0]
      exact digitVal_digitChar (by omega) hb10
    simp [parseDigits, parseDigitsAux, hd]
  · have key := parseDigitsAux_natDigitsAux hb2 hb10 n n 0 (le_refl n)
    have hne : (natToBase b n).data ≠ [] := natToBase_data_ne_nil n
    obtain ⟨c, rest, hcr⟩ := List.exists_cons_of_ne_nil hne
    have hdata : (natToBase b n).data = (natDigitsAux b n n).map digitChar := by
      simp [natToBase, if_neg h0, natDigits]
    rw [hcr]
    show parseDigitsAux b 0 (c :: rest) = some n
    rw [← hcr, hdata, key]
    simp

theorem char_ne_of_toNat_ne {c d : Char} (h : c.toNat ≠ d.toNat) : c ≠ d := by
  intro hcd
  exact h (congrArg Char.toNat hcd)

theorem jsStringToBigIntCore_digits {cs : List Char}
    (hdig : ∀ c ∈ cs, 48 ≤ c.toNat ∧ c.toNat ≤ 57) (hne : cs ≠ []) :
    jsStringToBigIntCore cs = (parseDigits 10 cs).map Int.ofNat := by
  obtain ⟨c, rest, rfl⟩ := List.exists_cons_of_ne_nil hne
  have hc := hdig c (by simp)
  have hplus : c ≠ '+' := by intro h; subst h; revert hc; decide
  have hminus : c ≠ '-' := by intro h; subst h; revert hc; decide
  cases rest with
  | nil =>
    by_cases h0 : c = '0'
    · subst h0; decide
    · simp only [jsStringToBigIntCore, if_neg hplus, if_neg hminus, if_neg h0]
  | cons c2 rest2 =>
    have hc2 := hdig c2 (by simp)
    have hx : ¬ (c2 = 'x' ∨ c2 = 'X') := by
      rintro (h | h) <;> subst h <;> revert hc2 <;> decide
    have hb2 : ¬ (c2 = 'b' ∨ c2 = 'B') := by
      rintro (h | h) <;> subst h <;> revert hc2 <;> decide
    have ho : ¬ (c2 = 'o' ∨ c2 = 'O') := by
      rintro (h | h) <;> subst h <;> revert hc2 <;> decide
    by_cases h0 : c = '0'
    · subst h0
      simp only [jsStringToBigIntCore, if_neg hplus, if_neg hminus, if_pos rfl,
        if_neg hx, if_neg hb2, if_neg ho]
      simp
    · simp only [jsStringToBigIntCore, if_neg hplus, if_neg hminus, if_neg h0]

theorem jsStringToBigInt_bigIntToString {v : Int} (hv : 0 ≤ v) :
    jsStringToBigInt (bigIntToString v) = some v := by
  have hneg : ¬ v < 0 := by omega
  have hstr : bigIntToString v = natToBase 10 v.natAbs := by
    simp [bigIntToString, hneg]
  have hdig := natToBase_data_digits (b := 10) (by omega) (by omega) v.natAbs
  have hws : ∀ c ∈ (natToBase 10 v.natAbs).data, jsWhitespace c = false := by
    intro c hc
    exact jsWhitespace_digit (hdig c hc).1 (hdig c hc).2
  rw [hstr]
  unfold jsStringToBigInt
  rw [trimWhitespace_eq_self hws,
    jsStringToBigIntCore_digits hdig (natToBase_data_ne_nil _),
    parseDigits_natToBase (by omega) (by omega) v.natAbs]
  have : Int.ofNat v.natAbs = v := by
    show ((v.natAbs : Nat) : Int) = v
    omega
  exact congrArg some this

/-! ## Bit-level composition and decomposition -/

theorem compose_eq_add {rel inc : Int} (hrel : 0 ≤ rel) (hinc0 : 0 ≤ inc)
    (hinc : inc < 4096) :
    Int.lor (Int.lor (bigShl rel 22) (bigShl 1 17)) inc =
      rel * 2 ^ 22 + 2 ^ 17 + inc := by
  obtain ⟨a, rfl⟩ : ∃ a : Nat, rel = (a : Int) := ⟨rel.toNat, by omega⟩
  obtain ⟨c, rfl⟩ : ∃ c : Nat, inc = (c : Int) := ⟨inc.toNat, by omega⟩
  have hc : c < 4096 := by exact_mod_cast hinc
  have h1 : bigShl ((a : Nat) : Int) 22 = ((a * 2 ^ 22 : Nat) : Int) := by
    unfold bigShl
    push_cast
    ring
  have h2 : bigShl (1 : Int) 17 = ((2 ^ 17 : Nat) : Int) := by
    unfold bigShl
    norm_num
  rw [h1, h2]
  have h3 : Int.lor ((a * 2 ^ 22 : Nat) : Int) ((2 ^ 17 : Nat) : Int) =
      (((a * 2 ^ 22) ||| 2 ^ 17 : Nat) : Int) := rfl
  rw [h3]
  have h4 : (a * 2 ^ 22) ||| 2 ^ 17 = a * 2 ^ 22 + 2 ^ 17 := by
    rw [Nat.mul_comm]
    exact (Nat.mul_add_lt_is_or (by norm_num) a).symm
  rw [h4]
  have h5 : Int.lor ((a * 2 ^ 22 + 2 ^ 17 : Nat) : Int) ((c : Nat) : Int) =
      (((a * 2 ^ 22 + 2 ^ 17) ||| c : Nat) : Int) := rfl
  rw [h5]
  have h6 : (a * 2 ^ 22 + 2 ^ 17) ||| c = a * 2 ^ 22 + 2 ^ 17 + c := by
    have hsplit : a * 2 ^ 22 + 2 ^ 17 = 2 ^ 12 * (2 ^ 10 * a + 2 ^ 5) := by ring
    have := Nat.mul_add_lt_is_or (i := 12) (b := c) (by omega) (2 ^ 10 * a + 2 ^ 5)
    rw [hsplit]
    omega
  rw [h6]
  push_cast
  ring

theorem bigShr_cast (m : Nat) (k : Nat) :
    bigShr ((m : Nat) : Int) k = ((m / 2 ^ k : Nat) : Int) := by
  unfold bigShr
  have h2 : ((2 : Int) ^ k) = ((2 ^ k : Nat) : Int) := by push_cast; ring
  rw [h2]
  exact (Int.ofNat_fdiv m (2 ^ k)).symm

theorem land_cast_31 (m : Nat) :
    Int.land ((m : Nat) : Int) 31 = ((m &&& 31 : Nat) : Int) := rfl

theorem land_cast_4095 (m : Nat) :
    Int.land ((m : Nat) : Int) 4095 = ((m &&& 4095 : Nat) : Int) := rfl

theorem nat_and_31 (m : Nat) : m &&& 31 = m % 32 := by
  have := Nat.and_pow_two_sub_one_eq_mod m 5
  norm_num at this
  exact this

theorem nat_and_4095 (m : Nat) : m &&& 4095 = m % 4096 := by
  have := Nat.and_pow_two_sub_one_eq_mod m 12
  norm_num at this
  exact this

/-- Decoding the four bit fields of a composed snowflake value
`a * 2^22 + 2^17 + c` (relative timestamp `a`, worker 1, process 0,
increment `c < 4096`). -/
theorem decode_fields (a c : Nat) (hc : c < 4096) :
    bigShr (((a * 2 ^ 22 + 2 ^ 17 + c : Nat) : Int)) 22 = ((a : Nat) : Int) ∧
    Int.land (bigShr (((a * 2 ^ 22 + 2 ^ 17 + c : Nat) : Int)) 17) 31 = 1 ∧
    Int.land (bigShr (((a * 2 ^ 22 + 2 ^ 17 + c : Nat) : Int)) 12) 31 = 0 ∧
    Int.land (((a * 2 ^ 22 + 2 ^ 17 + c : Nat) : Int)) 4095 = ((c : Nat) : Int) := by
  refine ⟨?_, ?_, ?_, ?_⟩
  · rw [bigShr_cast]
    congr 1
    omega
  · rw [bigShr_cast, land_cast_31]
    have : (a * 2 ^ 22 + 2 ^ 17 + c) / 2 ^ 17 &&& 31 = 1 := by
      rw [nat_and_31]
      omega
    rw [this]
    rfl
  · rw [bigShr_cast, land_cast_31]
    have : (a * 2 ^ 22 + 2 ^ 17 + c) / 2 ^ 12 &&& 31 = 0 := by
      rw [nat_and_31]
      omega
    rw [this]
    rfl
  · rw [land_cast_4095]
    congr 1
    rw [nat_and_4095]
    omega

/-! ## Behaviour of `generate` on integer timestamps -/

theorem generate_int (t inc : Int) :
    generate (.num (.int t)) inc =
      (.ok (bigIntToString
        (Int.lor (Int.lor (bigShl (t - EPOCH) 22) (bigShl 1 17))
          (if 4095 ≤ inc then 0 else inc))),
       (if 4095 ≤ inc then 0 else inc) + 1) := by
  simp [generate, jsIsNaN, jsBigIntOfNum]

/-- The string minted for an integer timestamp `t ≥ EPOCH` and an in-range
pre-reset counter value `inc1` decodes to the double-rounded timestamp
`roundToDouble (roundToDouble (t - EPOCH) + EPOCH)` (which is `t` itself
whenever `t < 2^53`), worker 1, process 0 and increment `inc1`. -/
theorem deconstruct_minted {t inc1 : Int} (ht : EPOCH ≤ t) (h0 : 0 ≤ inc1)
    (h1 : inc1 < 4096) :
    ∃ d, deconstruct
        (bigIntToString
          (Int.lor (Int.lor (bigShl (t - EPOCH) 22) (bigShl 1 17)) inc1)) =
        .ok d ∧
      d.timestamp = roundToDouble (roundToDouble (t - EPOCH) + EPOCH) ∧
      d.workerId = 1 ∧ d.processId = 0 ∧ d.increment = inc1 := by
  have hrel : 0 ≤ t - EPOCH := by omega
  rw [compose_eq_add hrel h0 h1]
  obtain ⟨a, ha⟩ : ∃ a : Nat, t - EPOCH = (a : Int) := ⟨(t - EPOCH).toNat, by omega⟩
  obtain ⟨c, hcv⟩ : ∃ c : Nat, inc1 = (c : Int) := ⟨inc1.toNat, by omega⟩
  have hc : c < 4096 := by exact_mod_cast hcv ▸ h1
  have hval : (t - EPOCH) * 2 ^ 22 + 2 ^ 17 + inc1 =
      ((a * 2 ^ 22 + 2 ^ 17 + c : Nat) : Int) := by
    rw [ha, hcv]
    push_cast
    ring
  rw [hval]
  have hnn : (0 : Int) ≤ ((a * 2 ^ 22 + 2 ^ 17 + c : Nat) : Int) := by positivity
  have hparse := jsStringToBigInt_bigIntToString hnn
  have hepoch : roundToDouble EPOCH = EPOCH := roundToDouble_small (by decide)
  unfold deconstruct
  rw [hparse]
  obtain ⟨f1, f2, f3, f4⟩ := decode_fields a c hc
  refine ⟨_, rfl, ?_, ?_, ?_, ?_⟩
  · show roundToDouble (roundToDouble (bigShr _ 22) + roundToDouble EPOCH) =
      roundToDouble (roundToDouble (t - EPOCH) + EPOCH)
    rw [f1, ← ha, hepoch]
  · show roundToDouble (Int.land (bigShr _ 17) 31) = 1
    rw [f2]
    exact roundToDouble_small (by decide)
  · show roundToDouble (Int.land (bigShr _ 12) 31) = 0
    rw [f3]
    exact roundToDouble_small (by decide)
  · show roundToDouble
        (Int.land (((a * 2 ^ 22 + 2 ^ 17 + c : Nat) : Int)) 4095) = inc1
    rw [f4, ← hcv]
    exact roundToDouble_small (by omega)

/-! ## Runs of consecutive `generate` calls -/

theorem genRun_succ (input : GenInput) (inc : Int) (k : Nat) :
    genRun input inc (k + 1) =
      (generate input inc).fst :: genRun input (generate input inc).snd k := rfl

theorem genRun_int_get (t : Int) :
    ∀ (k n : Nat) (inc : Int), k < n → 0 ≤ inc → inc + (k : Int) ≤ 4095 →
      (genRun (.num (.int t)) inc n)[k]? =
        some ((generate (.num (.int t)) (inc + (k : Int))).fst) := by
  intro k
  induction k with
  | zero =>
    intro n inc hkn h0 hle
    cases n with
    | zero => omega
    | succ m =>
      rw [genRun_succ]
      simp
  | succ k ih =>
    intro n inc hkn h0 hle
    cases n with
    | zero => omega
    | succ m =>
      rw [genRun_succ]
      have hk4094 : ¬ 4095 ≤ inc := by
        push_cast at hle
        omega
      have hsnd : (generate (.num (.int t)) inc).snd = inc + 1 := by
        rw [generate_int]
        simp [hk4094]
      simp only [List.getElem?_cons_succ]
      rw [hsnd]
      have hrec := ih m (inc + 1) (by omega) (by omega)
        (by push_cast at hle ⊢; omega)
      rw [hrec]
      congr 2
      push_cast
      ring_nf

theorem genRun_zero_get (t : Int) (k : Nat) (hk : k ≤ 4095) :
    (genRun (.num (.int t)) 0 4096)[k]? =
      some (.ok (bigIntToString
        (Int.lor (Int.lor (bigShl (t - EPOCH) 22) (bigShl 1 17))
          (if k = 4095 then 0 else (k : Int))))) := by
  have hget := genRun_int_get t k 4096 0 (by omega) le_rfl (by omega)
  rw [hget, zero_add, generate_int]
  by_cases h : k = 4095
  · subst h
    norm_num
  · have h1 : ¬ (4095 ≤ (k : Int)) := by omega
    simp [h, h1]

/-! ## The claims -/

/-- C2 (counterexample): the claim fails for large representable timestamps
because `Number(bigint)` and the float addition round to double precision.
At `t = 2^65 + 2^42 + 2^13` (an exactly representable JS number) with
counter 0, `generate` mints `"154742517401209683430211584"`, but decoding
that string gives timestamp `t + 8192`: the relative timestamp rounds up by
4096 in its binade, and adding `EPOCH` rounds up by another 4096. -/
theorem claim_C2_counterexample :
    (generate (GenInput.num (JSNum.int 36893492545465622528)) 0).fst =
        .ok "154742517401209683430211584" ∧
      (deconstruct "154742517401209683430211584").map
          DeconstructedSnowflake.timestamp = .ok 36893492545465630720 ∧
      ((36893492545465630720 : Int) ≠ 36893492545465622528) := by
  refine ⟨by decide, by decide, by decide⟩

/-- C2 (amended): for every integer millisecond timestamp `t` with
`EPOCH ≤ t < 2^53` — the range on which the `Number(bigint)` conversions and
the float addition in `deconstruct` are exact — `generate` succeeds and
`deconstruct` of the minted string recovers exactly `t` as the `timestamp`
field, whatever (nonnegative) value the increment counter holds when the
call is made.  Beyond `2^53` the decoded timestamp is the double rounding of
`t`, which can differ from `t` (see the counterexample). -/
theorem claim_C2_roundtrip (t inc : Int) (ht : EPOCH ≤ t) (h53 : t < 2 ^ 53)
    (hinc : 0 ≤ inc) :
    (∃ s, (generate (.num (.int t)) inc).fst = .ok s) ∧
      ∀ s, (generate (.num (.int t)) inc).fst = .ok s →
        (deconstruct s).map DeconstructedSnowflake.timestamp = .ok t := by
  have h0 : 0 ≤ (if 4095 ≤ inc then 0 else inc) := by split <;> omega
  have h1 : (if 4095 ≤ inc then 0 else inc) < 4096 := by split <;> omega
  obtain ⟨d, hd, htime, hw, hp, hi⟩ := deconstruct_minted ht h0 h1
  have hE : (0 : Int) ≤ EPOCH := by decide
  have hrel : roundToDouble (t - EPOCH) = t - EPOCH :=
    roundToDouble_small (by omega)
  have hsum : t - EPOCH + EPOCH = t := by omega
  have hT : roundToDouble t = t := roundToDouble_small (by omega)
  constructor
  · exact ⟨_, by rw [generate_int]⟩
  · intro s hs
    rw [generate_int] at hs
    have hval := Except.ok.inj hs
    rw [← hval, hd]
    show Except.ok d.timestamp = Except.ok t
    rw [htime, hrel, hsum, hT]

/-- Witness for C2 (amended) at `t = 1420070401000 < 2^53`, counter `0`: the
minted snowflake is `"4194435072"` and decodes back to the same timestamp. -/
theorem claim_C2_roundtrip_witness :
    EPOCH ≤ (1420070401000 : Int) ∧ (1420070401000 : Int) < 2 ^ 53 ∧
      (deconstruct "4194435072").map DeconstructedSnowflake.timestamp =
        .ok 1420070401000 :=
  ⟨by decide, by decide,
    (claim_C2_roundtrip 1420070401000 0 (by decide) (by decide) (by decide)).2
      "4194435072" (by decide)⟩

/-- C6: `getTimestamp` agrees with `deconstruct` followed by projecting the
`timestamp` field, both on successes and on failures (same error). -/
theorem claim_C6_getTimestamp_refines_deconstruct (s : String) :
    getTimestamp s = (deconstruct s).map DeconstructedSnowflake.timestamp := by
  cases hjs : jsStringToBigInt s with
  | none =>
    unfold getTimestamp deconstruct
    rw [hjs]
    rfl
  | some b =>
    unfold getTimestamp deconstruct
    rw [hjs]
    rfl

/-- C9: one `generate` call keeps the counter inside `[0, 4095]`, whatever
the argument is (valid or not); the remaining operations (`deconstruct`,
`getTimestamp`, `calculateDuration`, `EPOCH`) are functions of their string
arguments alone — as in the source, which never mentions the module counter
in them — so they cannot change it. -/
theorem claim_C9_counter_invariant (input : GenInput) (inc : Int)
    (h0 : 0 ≤ inc) (h1 : inc ≤ 4095) :
    0 ≤ (generate input inc).snd ∧ (generate input inc).snd ≤ 4095 := by
  cases input with
  | num x =>
    cases x <;> simp [generate, jsIsNaN, jsBigIntOfNum] <;>
      first
      | (split <;> omega)
      | omega
  | date x =>
    cases x <;> simp [generate, jsIsNaN, jsBigIntOfNum] <;>
      first
      | (split <;> omega)
      | omega
  | other =>
    simp [generate]
    omega

/-- Witness for C9 at the boundary counter value 4095 with a valid
timestamp: the counter stays in range (it wraps to 1). -/
theorem claim_C9_counter_invariant_witness :
    0 ≤ (generate (GenInput.num (JSNum.int 1420070400000)) 4095).snd ∧
      (generate (GenInput.num (JSNum.int 1420070400000)) 4095).snd ≤ 4095 :=
  claim_C9_counter_invariant (GenInput.num (JSNum.int 1420070400000)) 4095
    (by decide) (by decide)

/-- C4 (counterexample): `generate(Infinity)` does not raise the validation
`TypeError` (the spec's `InvalidTimestamp`); the `BigInt` conversion raises a
`RangeError` instead, although `Infinity` is a non-finite number. -/
theorem claim_C4_counterexample :
    (generate (GenInput.num JSNum.posInf) 0).fst = .error .rangeError ∧
      (generate (GenInput.num JSNum.posInf) 0).fst ≠ .error .typeError := by
  decide

/-- C4 (amended): the validation `TypeError` (`InvalidTimestamp`) is raised
exactly when the argument is not a number or is `NaN` (including a `Date`
whose time value is `NaN`); finite non-integers and the two infinities
instead make the `BigInt(timestamp)` conversion raise a `RangeError`. -/
theorem claim_C4_error_conditions (input : GenInput) (inc : Int) :
    ((generate input inc).fst = .error .typeError ↔
      (input = .other ∨ input = .num .nan ∨ input = .date .nan)) ∧
    ((generate input inc).fst = .error .rangeError ↔
      (input = .num .nonInt ∨ input = .num .posInf ∨ input = .num .negInf ∨
        input = .date .nonInt ∨ input = .date .posInf ∨ input = .date .negInf)) := by
  cases input with
  | num x => cases x <;> simp [generate, jsIsNaN, jsBigIntOfNum]
  | date x => cases x <;> simp [generate, jsIsNaN, jsBigIntOfNum]
  | other => simp [generate]

/-- C5 (counterexample): when the counter sits at its maximum 4095 and
`generate` is called on `Infinity`, the call throws (a `RangeError`), yet the
counter has been reset to 0 by the wrap-around check that runs before the
failing `BigInt` conversion — the counter is not left as it was. -/
theorem claim_C5_counterexample :
    (generate (GenInput.num JSNum.posInf) 4095).fst = .error .rangeError ∧
      (generate (GenInput.num JSNum.posInf) 4095).snd = 0 ∧
      ((0 : Int) ≠ 4095) := by
  decide

/-- C5 (amended): on a failing call the counter is unchanged, except when the
failure is the `RangeError` of the `BigInt` conversion and the counter was at
least 4095 — the wrap-around reset precedes that conversion, so the counter
comes out 0. -/
theorem claim_C5_error_state (input : GenInput) (inc : Int) (e : JSError)
    (h : (generate input inc).fst = .error e) :
    (generate input inc).snd =
      if e = JSError.rangeError ∧ 4095 ≤ inc then 0 else inc := by
  cases input with
  | num x =>
    cases x <;> simp_all [generate, jsIsNaN, jsBigIntOfNum] <;> subst h <;> simp
  | date x =>
    cases x <;> simp_all [generate, jsIsNaN, jsBigIntOfNum] <;> subst h <;> simp
  | other =>
    simp_all [generate]
    subst h
    simp

/-- Witness for C5 (amended): a failing `Infinity` call at counter 4095
leaves the counter at 0. -/
theorem claim_C5_error_state_witness :
    (generate (GenInput.num JSNum.posInf) 4095).snd = 0 := by
  have h := claim_C5_error_state (GenInput.num JSNum.posInf) 4095
    JSError.rangeError (by decide)
  simpa using h

/-- C10: `deconstruct` and `getTimestamp` accept the empty string and every
whitespace-only string without error: `BigInt("")` is `0`, so the decoded
timestamp is `EPOCH` and the worker, process and increment fields are all
zero. -/
theorem claim_C10_empty_string (s : String)
    (h : ∀ c ∈ s.data, jsWhitespace c = true) :
    deconstruct s =
      .ok ⟨EPOCH, 0, 0, 0,
        "0000000000000000000000000000000000000000000000000000000000000000"⟩ ∧
      getTimestamp s = .ok EPOCH := by
  have hparse : jsStringToBigInt s = some 0 := by
    unfold jsStringToBigInt
    rw [trimWhitespace_eq_nil h]
    rfl
  constructor
  · unfold deconstruct
    rw [hparse]
    decide
  · unfold getTimestamp
    rw [hparse]
    decide

/-- Witness for C10 at the empty string and at a whitespace-only string. -/
theorem claim_C10_empty_string_witness :
    (deconstruct "" =
      .ok ⟨EPOCH, 0, 0, 0,
        "0000000000000000000000000000000000000000000000000000000000000000"⟩ ∧
      getTimestamp "" = .ok EPOCH) ∧
    (deconstruct " \t " =
      .ok ⟨EPOCH, 0, 0, 0,
        "0000000000000000000000000000000000000000000000000000000000000000"⟩ ∧
      getTimestamp " \t " = .ok EPOCH) :=
  ⟨claim_C10_empty_string "" (by decide),
    claim_C10_empty_string " \t " (by decide)⟩

/-- C3 (counterexample): one second after the epoch with counter 0 the code
mints `"4194435072"`, not `"4319917056"`; and `"4319917056"` decodes to
timestamp 1420070401029, worker 30, process 11, increment 1024 — not to the
claimed `{1420070401000, 1, 0, 0}`. -/
theorem claim_C3_counterexample :
    (generate (GenInput.num (JSNum.int 1420070401000)) 0).fst =
        .ok "4194435072" ∧
      "4194435072" ≠ "4319917056" ∧
      deconstruct "4319917056" =
        .ok ⟨1420070401029, 30, 11, 1024,
          "0000000000000000000000000000000100000001011111001011010000000000"⟩ ∧
      (1420070401029 : Int) ≠ 1420070401000 := by
  refine ⟨by decide, by decide, by decide, by decide⟩

/-- C3 (amended): generating at absolute time 1420070401000 with counter 0
yields `(1000 << 22) | (1 << 17) | 0 = 4194435072` rendered in decimal, and
`deconstruct("4194435072")` gives timestamp 1420070401000, worker 1,
process 0, increment 0. -/
theorem claim_C3_concrete_scenario :
    Int.lor (Int.lor (bigShl 1000 22) (bigShl 1 17)) 0 = 4194435072 ∧
      (generate (GenInput.num (JSNum.int 1420070401000)) 0).fst =
        .ok "4194435072" ∧
      (generate (GenInput.num (JSNum.int 1420070401000)) 0).snd = 1 ∧
      deconstruct "4194435072" =
        .ok ⟨1420070401000, 1, 0, 0,
          "0000000000000000000000000000000011111010000000100000000000000000"⟩ := by
  refine ⟨by decide, by decide, by decide, by decide⟩

/-! ## The binary rendering -/

theorem parseDigitsAux_zeros {b : Nat} (hb2 : 2 ≤ b) (hb10 : b ≤ 10) (k : Nat)
    (cs : List Char) :
    parseDigitsAux b 0 (List.replicate k '0' ++ cs) = parseDigitsAux b 0 cs := by
  induction k with
  | zero => simp
  | succ k ih =>
    have hd0 : digitChar 0 = '0' := by decide
    have hd : digitVal b '0' = some 0 := by
      rw [← hd0]
      exact digitVal_digitChar (by omega) hb10
    simp only [List.replicate_succ, List.cons_append, parseDigitsAux, hd]
    simpa using ih

theorem parseDigits_of_ne_nil {b : Nat} {cs : List Char} (h : cs ≠ []) :
    parseDigits b cs = parseDigitsAux b 0 cs := by
  cases cs with
  | nil => exact absurd rfl h
  | cons c rest => rfl

theorem padStart_length {s : String} (len : Nat) (c : Char) (h : s.length ≤ len) :
    (padStart s len c).length = len := by
  show (List.replicate (len - s.length) c ++ s.data).length = len
  have hsd : s.length = s.data.length := rfl
  simp only [List.length_append, List.length_replicate]
  omega

theorem natToBase_length_le {b : Nat} (hb : 2 ≤ b) {n k : Nat} (hn : n < b ^ k)
    (hk : 1 ≤ k) : (natToBase b n).length ≤ k := by
  by_cases h0 : n = 0
  · subst h0
    show ("0" : String).length ≤ k
    simpa using hk
  · have : (natToBase b n).length = ((natDigits b n).map digitChar).length := by
      simp [natToBase, if_neg h0]
    rw [this, List.length_map]
    exact natDigitsAux_length_le hb n n k (le_refl n) hn

theorem natToBase2_chars {n : Nat} :
    ∀ c ∈ (natToBase 2 n).data, c = '0' ∨ c = '1' := by
  intro c hc
  by_cases h0 : n = 0
  · subst h0
    left
    simpa [natToBase] using hc
  · simp only [natToBase, if_neg h0] at hc
    obtain ⟨d, hd, rfl⟩ := List.mem_map.mp hc
    have hd2 : d < 2 := natDigitsAux_lt (by omega) n n d hd
    interval_cases d <;> decide

/-- C8 (amended): for every snowflake string whose value `v` satisfies
`0 ≤ v < 2^64`, the `binary` field has exactly 64 characters, all of them
`'0'` or `'1'`, and reading it back in base 2 recovers `v`.  (Values outside
that range break the 64-character bound or the digit alphabet, see the
counterexample.) -/
theorem claim_C8_binary (s : String) (v : Int) (hp : jsStringToBigInt s = some v)
    (h0 : 0 ≤ v) (h64 : v < 2 ^ 64) :
    ∃ d, deconstruct s = .ok d ∧ d.binary.length = 64 ∧
      (∀ c ∈ d.binary.data, c = '0' ∨ c = '1') ∧
      parseDigits 2 d.binary.data = some v.toNat := by
  have hneg : ¬ v < 0 := by omega
  have hb2s : bigIntToStringBase2 v = natToBase 2 v.natAbs := by
    simp [bigIntToStringBase2, hneg]
  have habs : v.natAbs < 2 ^ 64 := by omega
  have hlen : (natToBase 2 v.natAbs).length ≤ 64 :=
    natToBase_length_le (by omega) habs (by omega)
  unfold deconstruct
  rw [hp]
  refine ⟨_, rfl, ?_, ?_, ?_⟩
  · show (padStart (bigIntToStringBase2 v) 64 '0').length = 64
    rw [hb2s]
    exact padStart_length 64 '0' hlen
  · intro c hc
    rw [hb2s] at hc
    have hc2 : c ∈ List.replicate (64 - (natToBase 2 v.natAbs).length) '0' ++
        (natToBase 2 v.natAbs).data := hc
    rcases List.mem_append.mp hc2 with h | h
    · left
      exact List.eq_of_mem_replicate h
    · exact natToBase2_chars c h
  · show parseDigits 2 (padStart (bigIntToStringBase2 v) 64 '0').data = some v.toNat
    rw [hb2s]
    have hdata : (padStart (natToBase 2 v.natAbs) 64 '0').data =
        List.replicate (64 - (natToBase 2 v.natAbs).length) '0' ++
          (natToBase 2 v.natAbs).data := rfl
    rw [hdata, parseDigits_of_ne_nil (by
      intro hnil
      exact natToBase_data_ne_nil v.natAbs (by
        rcases List.append_eq_nil.mp hnil with ⟨_, h2⟩
        exact h2))]
    rw [parseDigitsAux_zeros (by omega) (by omega)]
    rw [← parseDigits_of_ne_nil (natToBase_data_ne_nil v.natAbs)]
    rw [parseDigits_natToBase (by omega) (by omega) v.natAbs]
    congr 1
    omega

/-- Witness for C8 (amended) at the snowflake `"5"`. -/
theorem claim_C8_binary_witness :
    jsStringToBigInt "5" = some 5 ∧
      ∃ d, deconstruct "5" = .ok d ∧ d.binary.length = 64 ∧
        (∀ c ∈ d.binary.data, c = '0' ∨ c = '1') ∧
        parseDigits 2 d.binary.data = some (5 : Int).toNat :=
  ⟨by decide, claim_C8_binary "5" 5 (by decide) (by decide) (by decide)⟩

/-- C8 (counterexample): the snowflake `2^64`, written in decimal, parses
fine but its `binary` field has 65 characters, because `padStart` never
truncates. -/
theorem claim_C8_counterexample :
    (deconstruct "18446744073709551616").map (fun d => d.binary.length) =
        .ok 65 ∧ (65 : Nat) ≠ 64 := by
  refine ⟨by decide, by decide⟩

/-- C1 (amended): starting from counter 0, 4096 calls of `generate` with the
same integer timestamp `t ≥ EPOCH` embed the increments `0, 1, …, 4094, 0`:
the counter is reset *before* being used once it has reached 4095, and the
embedding uses the pre-increment value, so 4095 itself is never embedded.
The first 4095 calls are pairwise distinct; the 4096th call repeats the
first. -/
theorem claim_C1_burst (t : Int) (ht : EPOCH ≤ t) :
    (∀ k : Nat, k ≤ 4094 →
      ∃ s, (genRun (.num (.int t)) 0 4096)[k]? = some (.ok s) ∧
        (deconstruct s).map DeconstructedSnowflake.increment = .ok (k : Int)) ∧
    (∃ s, (genRun (.num (.int t)) 0 4096)[4095]? = some (.ok s) ∧
      (deconstruct s).map DeconstructedSnowflake.increment = .ok 0) ∧
    (∀ i j : Nat, i < j → j ≤ 4094 →
      (genRun (.num (.int t)) 0 4096)[i]? ≠ (genRun (.num (.int t)) 0 4096)[j]?) ∧
    (genRun (.num (.int t)) 0 4096)[4095]? =
      (genRun (.num (.int t)) 0 4096)[0]? := by
  refine ⟨?_, ?_, ?_, ?_⟩
  · intro k hk
    have hget := genRun_zero_get t k (by omega)
    rw [hget, if_neg (by omega : k ≠ 4095)]
    obtain ⟨d, hd, _, _, _, hi⟩ :=
      @deconstruct_minted t ((k : Nat) : Int) ht (by omega) (by omega)
    refine ⟨_, rfl, ?_⟩
    rw [hd]
    show Except.ok d.increment = Except.ok ((k : Nat) : Int)
    rw [hi]
  · have hget := genRun_zero_get t 4095 (by omega)
    rw [hget, if_pos rfl]
    obtain ⟨d, hd, _, _, _, hi⟩ := @deconstruct_minted t 0 ht (by omega) (by omega)
    refine ⟨_, rfl, ?_⟩
    rw [hd]
    show Except.ok d.increment = Except.ok 0
    rw [hi]
  · intro i j hij hj
    have hgi := genRun_zero_get t i (by omega)
    have hgj := genRun_zero_get t j (by omega)
    rw [hgi, hgj, if_neg (by omega : i ≠ 4095), if_neg (by omega : j ≠ 4095)]
    intro heq
    have hs := Except.ok.inj (Option.some.inj heq)
    rw [compose_eq_add (by omega) (by omega) (by omega),
      compose_eq_add (by omega) (by omega) (by omega)] at hs
    have h1 := jsStringToBigInt_bigIntToString
      (v := (t - EPOCH) * 2 ^ 22 + 2 ^ 17 + ((i : Nat) : Int)) (by omega)
    have h2 := jsStringToBigInt_bigIntToString
      (v := (t - EPOCH) * 2 ^ 22 + 2 ^ 17 + ((j : Nat) : Int)) (by omega)
    rw [hs] at h1
    rw [h2] at h1
    have := Option.some.inj h1
    omega
  · rw [genRun_zero_get t 4095 (by omega), genRun_zero_get t 0 (by omega)]
    norm_num

/-- Witness for C1 (amended) at `t = EPOCH`: call 4096 repeats call 1. -/
theorem claim_C1_burst_witness :
    EPOCH ≤ EPOCH ∧
      (genRun (GenInput.num (JSNum.int EPOCH)) 0 4096)[4095]? =
        (genRun (GenInput.num (JSNum.int EPOCH)) 0 4096)[0]? :=
  ⟨le_refl EPOCH, (claim_C1_burst EPOCH (le_refl EPOCH)).2.2.2⟩

/-- C1 (counterexample): with the fixed timestamp `EPOCH` and counter 0, the
1st and the 4096th call return the same snowflake string `"131072"`, so the
first 4096 calls do collide and the embedded increments are not
`0, …, 4095`. -/
theorem claim_C1_counterexample :
    (genRun (GenInput.num (JSNum.int 1420070400000)) 0 4096)[0]? =
        some (.ok "131072") ∧
      (genRun (GenInput.num (JSNum.int 1420070400000)) 0 4096)[4095]? =
        some (.ok "131072") := by
  have h0 := genRun_zero_get 1420070400000 0 (by omega)
  have h4095 := genRun_zero_get 1420070400000 4095 (by omega)
  rw [h0, h4095]
  refine ⟨by decide, by decide⟩

end MoltenFlake
